/-
Verification of the trading-server repository (BitMEX venue adapter,
order router, cancel handling, timeframe scheduler and EMA-cross test
model) against its natural-language specification.

The Python source is shallowly embedded: pure fragments become Lean
functions, Python exceptions become an explicit `Except PyErr` result,
Python `None` becomes `Option`, JSON numeric fields are modelled as
`Int` (the claims under study are about data flow and classification,
not float arithmetic), and venue HTTP responses are passed in as
explicit arguments (oracles) in place of the network.
-/
import Mathlib

/-- Python exception outcomes that the embedded code can produce.
`systemExit` models `sys.exit(0)`, `excStr` models `raise Exception(s)`
carrying a string payload, `excCode` models `raise Exception(code, msg)`. -/
inductive PyErr where
  | typeError
  | indexError
  | keyError
  | attributeError
  | systemExit
  | zeroDivisionError
  | excStr (s : String)
  | excCode (code : Nat) (msg : String)
  deriving DecidableEq, Repr

deriving instance DecidableEq for Except

/-! ## Timeframe scheduler (`required_timeframes`, src/misc testing/model_test.py) -/

/-- Python `''.join(filter(str.isdigit, s))` from `required_timeframes`. -/
def digitsOf (s : String) : String :=
  ⟨s.data.filter Char.isDigit⟩

/-- First maximal run of ASCII letters: `re.findall("[a-zA-Z]+", s)[0]`,
as `Option` (`none` when the string has no letter, where Python's `[0]`
would raise `IndexError`). -/
def firstAlphaRun (s : String) : Option String :=
  let rest := s.data.dropWhile (fun c => ¬ c.isAlpha)
  match rest with
  | [] => none
  | _ => some ⟨rest.takeWhile Char.isAlpha⟩

/-- Decimal value of a list of digit characters, as `int()` computes it. -/
def natOfDigits (l : List Char) : Nat :=
  l.foldl (fun a c => a * 10 + (c.toNat - 48)) 0

/-- Python `int(''.join(filter(str.isdigit, s)))`: `none` when there is no digit
(Python raises `ValueError` on `int('')`). -/
def numOf (s : String) : Option Nat :=
  if (digitsOf s).data = [] then none else some (natOfDigits (digitsOf s).data)

/-- The string appended by the generic doubling branch of
`required_timeframes`: `str(num * 2) + code[0]`. -/
def genericTrigger (s : String) : Option String :=
  match numOf s, firstAlphaRun s with
  | some n, some c => some (toString (n * 2) ++ c)
  | _, _ => none

/-- One iteration of the `for timeframe in timeframes` loop of
`required_timeframes`: given the original input list and the `to_add`
accumulator, process one timeframe string. -/
def deriveStep (timeframes : List String) (to_add : List String)
    (timeframe : String) : Except PyErr (List String) :=
  if timeframe = "1Min" then
    .ok (if "3Min" ∉ timeframes ∧ "3Min" ∉ to_add then to_add ++ ["3Min"] else to_add)
  else if timeframe = "3Min" then
    .ok (if "5Min" ∉ timeframes ∧ "5Min" ∉ to_add then to_add ++ ["5Min"] else to_add)
  else if timeframe = "5Min" then
    .ok (if "15Min" ∉ timeframes ∧ "15Min" ∉ to_add then to_add ++ ["15Min"] else to_add)
  else if timeframe = "12H" ∨ timeframe = "16H" then
    .ok (if "1D" ∉ timeframes ∧ "1D" ∉ to_add then to_add ++ ["1D"] else to_add)
  else if timeframe = "30Min" then
    .ok (if "1H" ∉ timeframes ∧ "1H" ∉ to_add then to_add ++ ["1H"] else to_add)
  else
    match genericTrigger timeframe with
    | some t => .ok (to_add ++ [t])
    | none => .error .typeError

/-- The `to_add` list built by `required_timeframes` over the whole input. -/
def buildToAdd (timeframes : List String) : List String → List String →
    Except PyErr (List String)
  | to_add, [] => .ok to_add
  | to_add, tf :: rest => do
      let to_add' ← deriveStep timeframes to_add tf
      buildToAdd timeframes to_add' rest

/-- Embeds `required_timeframes` (src/misc testing/model_test.py): returns the
final contents of the (mutated in place) `timeframes` list, i.e. the
input followed by every `to_add` entry. -/
def required_timeframes (timeframes : List String) : Except PyErr (List String) := do
  let to_add ← buildToAdd timeframes [] timeframes
  return timeframes ++ to_add

example : required_timeframes ["1Min"] = .ok ["1Min", "3Min"] := by decide
example : required_timeframes ["12H", "16H"] = .ok ["12H", "16H", "1D"] := by decide
example : required_timeframes ["4H"] = .ok ["4H", "8H"] := by decide
example : required_timeframes ["2H", "2H"] = .ok ["2H", "2H", "4H", "4H"] := by decide
example : required_timeframes ["2H", "4H"] = .ok ["2H", "4H", "4H", "8H"] := by decide
example : required_timeframes ["1Min", "3Min"] = .ok ["1Min", "3Min", "5Min"] := by decide

/-- The timeframe vocabulary of the repository: the keys of the model's
`lookback` table (src/model.py). -/
def timeframeVocab : List String :=
  ["1Min", "3Min", "5Min", "15Min", "30Min", "1H", "2H", "3H", "4H", "6H",
   "8H", "12H", "16H", "1D", "2D", "3D", "4D", "7D", "14D"]

/-- The five trigger values produced by the special-cased branches of
`required_timeframes`. -/
def specialTriggers : List String := ["3Min", "5Min", "15Min", "1D", "1H"]

/-- The input timeframes handled by a special-cased branch. -/
def specialInputs : List String := ["1Min", "3Min", "5Min", "12H", "16H", "30Min"]

lemma deriveStep_generic (L acc : List String) (tf : String)
    (h1 : tf ≠ "1Min") (h2 : tf ≠ "3Min") (h3 : tf ≠ "5Min")
    (h4 : ¬(tf = "12H" ∨ tf = "16H")) (h5 : tf ≠ "30Min") :
    deriveStep L acc tf =
      match genericTrigger tf with
      | some g => .ok (acc ++ [g])
      | none => .error .typeError := by
  unfold deriveStep
  rw [if_neg h1, if_neg h2, if_neg h3, if_neg h4, if_neg h5]

lemma genericTrigger_vocab_not_special :
    ∀ tf ∈ timeframeVocab, ∀ t ∈ specialTriggers, genericTrigger tf ≠ some t := by
  decide

lemma count_append_ne (acc : List String) {x t : String} (h : x ≠ t) :
    (acc ++ [x]).count t = acc.count t := by
  simp [List.count_append, List.count_singleton', h]

lemma deriveStep_count_preserve (L acc : List String) (tf t : String)
    (hv : tf ∈ timeframeVocab) (ht : t ∈ specialTriggers) (acc' : List String)
    (h : deriveStep L acc tf = .ok acc') :
    acc'.count t = acc.count t ∨
      (t ∉ L ∧ t ∉ acc ∧ acc'.count t = acc.count t + 1) := by
  have hspecial : ∀ trig : String, trig ∈ specialTriggers →
      (Except.ok (if trig ∉ L ∧ trig ∉ acc then acc ++ [trig] else acc)
        : Except PyErr (List String)) = Except.ok acc' →
      acc'.count t = acc.count t ∨
        (t ∉ L ∧ t ∉ acc ∧ acc'.count t = acc.count t + 1) := by
    intro trig _ htrig
    by_cases hc : trig ∉ L ∧ trig ∉ acc
    · rw [if_pos hc] at htrig
      injection htrig with htrig
      subst htrig
      by_cases htt : trig = t
      · subst htt
        exact Or.inr ⟨hc.1, hc.2, by simp [List.count_append]⟩
      · exact Or.inl (count_append_ne acc htt)
    · rw [if_neg hc] at htrig
      injection htrig with htrig
      subst htrig
      exact Or.inl rfl
  by_cases h1 : tf = "1Min"
  · subst h1; exact hspecial "3Min" (by decide) h
  by_cases h2 : tf = "3Min"
  · subst h2; exact hspecial "5Min" (by decide) h
  by_cases h3 : tf = "5Min"
  · subst h3; exact hspecial "15Min" (by decide) h
  by_cases h4 : tf = "12H" ∨ tf = "16H"
  · have e : Except.ok (ε := PyErr)
        (if "1D" ∉ L ∧ "1D" ∉ acc then acc ++ ["1D"] else acc) = .ok acc' := by
      rcases h4 with h4 | h4 <;> subst h4 <;> exact h
    exact hspecial "1D" (by decide) e
  by_cases h5 : tf = "30Min"
  · subst h5; exact hspecial "1H" (by decide) h
  · rw [deriveStep_generic L acc tf h1 h2 h3 h4 h5] at h
    cases e : genericTrigger tf with
    | none => rw [e] at h; cases h
    | some g =>
        rw [e] at h
        injection h with h
        subst h
        have hg : g ≠ t := by
          intro hgt
          exact genericTrigger_vocab_not_special tf hv t ht (hgt ▸ e)
        exact Or.inl (count_append_ne acc hg)

lemma buildToAdd_count_invariant (L : List String) (t : String)
    (ht : t ∈ specialTriggers) :
    ∀ (rest acc r : List String), (∀ tf ∈ rest, tf ∈ timeframeVocab) →
    buildToAdd L acc rest = .ok r →
    acc.count t ≤ 1 → (t ∈ L → acc.count t = 0) →
    r.count t ≤ 1 ∧ (t ∈ L → r.count t = 0) := by
  intro rest
  induction rest with
  | nil =>
      intro acc r _ hb h1 h2
      injection hb with hb
      subst hb
      exact ⟨h1, h2⟩
  | cons tf rest ih =>
      intro acc r hv hb h1 h2
      rw [show buildToAdd L acc (tf :: rest) =
            (deriveStep L acc tf).bind (fun a => buildToAdd L a rest) from rfl] at hb
      cases e : deriveStep L acc tf with
      | error _ => rw [e] at hb; cases hb
      | ok acc₁ =>
          rw [e] at hb
          have hv₁ : ∀ x ∈ rest, x ∈ timeframeVocab := fun x hx => hv x (.tail _ hx)
          rcases deriveStep_count_preserve L acc tf t (hv tf (.head _)) ht acc₁ e with
            hsame | ⟨hnL, hnacc, hincr⟩
          · exact ih acc₁ r hv₁ hb (hsame ▸ h1) (fun hl => hsame ▸ h2 hl)
          · have hzero : acc.count t = 0 := List.count_eq_zero.mpr hnacc
            refine ih acc₁ r hv₁ hb ?_ ?_
            · rw [hincr, hzero]
            · intro hl; exact absurd hl hnL

/-- C1 counterexample data: the generic doubling branch appends without any
duplicate check, so the duplicated input `["2H","2H"]` appends `"4H"` twice. -/
theorem required_timeframes_dup_counterexample :
    required_timeframes ["2H", "2H"] = .ok ["2H", "2H", "4H", "4H"] ∧
    List.count "4H" ["2H", "2H", "4H", "4H"] = 2 ∧
    List.count "4H" ["2H", "2H"] = 0 := by
  refine ⟨by decide, by decide, by decide⟩

/-- C1 (amended): the at-most-once deduplication holds only for the five
special-cased trigger rules; generic-rule triggers are appended
unconditionally by `deriveStep`. -/
theorem required_timeframes_special_dedup :
    (∀ L r : List String, (∀ tf ∈ L, tf ∈ timeframeVocab) →
      required_timeframes L = .ok r →
      ∀ t ∈ specialTriggers, r.count t ≤ L.count t + 1 ∧
        (t ∈ L → r.count t = L.count t)) ∧
    (∀ (L acc : List String) (tf g : String), tf ∉ specialInputs →
      genericTrigger tf = some g → deriveStep L acc tf = .ok (acc ++ [g])) := by
  constructor
  · intro L r hv hr t ht
    rw [show required_timeframes L =
          (buildToAdd L [] L).bind (fun ta => .ok (L ++ ta)) from rfl] at hr
    cases e : buildToAdd L [] L with
    | error _ => rw [e] at hr; cases hr
    | ok ta =>
        rw [e] at hr
        injection hr with hr
        subst hr
        have hta := buildToAdd_count_invariant L t ht L [] ta hv e
          (by simp) (fun _ => by simp)
        constructor
        · rw [List.count_append]
          have := hta.1
          omega
        · intro hl
          rw [List.count_append, hta.2 hl]
          omega
  · intro L acc tf g hns hg
    simp only [specialInputs, List.mem_cons, List.not_mem_nil, or_false, not_or] at hns
    obtain ⟨h1, h2, h3, h4a, h4b, h5⟩ := hns
    rw [deriveStep_generic L acc tf h1 h2 h3 (by tauto) h5, hg]

theorem required_timeframes_special_dedup_witness :
    List.count "5Min" ["1Min", "3Min", "5Min"] ≤ List.count "5Min" ["1Min", "3Min"] + 1 ∧
    deriveStep [] [] "2H" = .ok ["4H"] :=
  ⟨(required_timeframes_special_dedup.1 ["1Min", "3Min"] ["1Min", "3Min", "5Min"]
      (by decide) (by decide) "5Min" (by decide)).1,
   required_timeframes_special_dedup.2 [] [] "2H" "4H" (by decide) (by decide)⟩

/-! ## Order cancellation (`cancel_orders`, src/bitmex.py)

The venue response to the DELETE request is passed in as an explicit
argument.  A per-order response entry is modelled with its classification
fields; the `error` field distinguishes the three JSON shapes the code
distinguishes: key absent (`none`, Python `KeyError` path), key present
with value null (`some none`), and key present with a string
(`some (some s)`). -/

/-- One per-order entry of a BitMEX cancel response. -/
structure CEntry where
  orderID : String
  clOrdID : String
  ordType : String
  price : Option Int
  stopPx : Option Int
  ordStatus : String
  error : Option (Option String)
  deriving DecidableEq, Repr

/-- A successful cancellation confirmation record. -/
structure CancelConf where
  venue_id : String
  order_id : String
  status : String
  order_type : String
  price : Option Int
  deriving DecidableEq, Repr

/-- The body of the `for i in response` loop of `cancel_orders`: either a
keyed confirmation to store in `cancel_confs`, nothing (error key present
but null), or a raised exception. -/
def classifyCancelEntry (i : CEntry) : Except PyErr (Option (String × CancelConf)) :=
  let price := if i.ordType = "Stop" then i.stopPx else i.price
  match i.error with
  | some e =>
      match e with
      | some s =>
          if s = "Unable to cancel order due to existing state: Filled" then
            .ok (some (i.orderID,
              ⟨i.orderID, i.clOrdID, "FILLED", i.ordType, price⟩))
          else if s = "Unable to cancel order due to existing state: Canceled" then
            .ok (some (i.orderID,
              ⟨i.orderID, i.clOrdID, "CANCELLED", i.ordType, price⟩))
          else
            .error (.excStr s)
      | none => .ok none
  | none =>
      if i.ordStatus = "Canceled" then
        .ok (some (i.orderID,
          ⟨i.orderID, i.clOrdID, "CANCELLED", i.ordType, price⟩))
      else
        .error (.excStr i.ordStatus)

/-- Python dict assignment `d[k] = v`: replace in place if the key exists,
otherwise append (insertion order preserved). -/
def dictInsert (d : List (String × CancelConf)) (k : String) (v : CancelConf) :
    List (String × CancelConf) :=
  if d.any (fun p => p.1 = k) then
    d.map (fun p => if p.1 = k then (k, v) else p)
  else
    d ++ [(k, v)]

/-- The classification loop of `cancel_orders` over the whole response. -/
def cancelLoop (confs : List (String × CancelConf)) :
    List CEntry → Except PyErr (List (String × CancelConf))
  | [] => .ok confs
  | i :: rest => do
      match ← classifyCancelEntry i with
      | some (k, v) => cancelLoop (dictInsert confs k v) rest
      | none => cancelLoop confs rest

/-- Embeds `cancel_orders` (src/bitmex.py).  `order_ids` is `Option`-wrapped to
model passing Python `None` in place of a list, and its elements are
`Option String` because the guard inspects `order_ids[0] is None`.
The parsed venue response is the `response` argument. -/
def cancel_orders (order_ids : Option (List (Option String)))
    (response : List CEntry) :
    Except PyErr (Option (List (String × CancelConf))) :=
  match order_ids with
  | none => .error .typeError
  | some ids =>
      match ids with
      | [] => .error .indexError
      | first :: _ =>
          if first = none then .ok none
          else do
            let confs ← cancelLoop [] response
            return some confs

/-- The venue error string for cancelling an order already in Filled state. -/
def cancelFilledMsg : String := "Unable to cancel order due to existing state: Filled"

/-- The venue error string for cancelling an order already in Canceled state. -/
def cancelCanceledMsg : String := "Unable to cancel order due to existing state: Canceled"

/-- The price recorded in a cancel confirmation: the stop trigger for Stop
orders, otherwise the limit price. -/
def cancelPrice (i : CEntry) : Option Int :=
  if i.ordType = "Stop" then i.stopPx else i.price

/-- C2 counterexample data: a null or empty id list is not a no-op; it
raises, and only a list whose first element is null short-circuits. -/
theorem cancel_orders_empty_counterexample :
    cancel_orders (some []) [] = .error .indexError ∧
    cancel_orders none [] = .error .typeError :=
  ⟨rfl, rfl⟩

/-- C2 (amended): only a list whose first element is null makes
`cancel_orders` a no-op returning nothing; a null list raises a type
error and an empty list raises an index error. -/
theorem cancel_orders_none_guard :
    ∀ (rest : List (Option String)) (response : List CEntry),
    cancel_orders (some (none :: rest)) response = .ok none ∧
    cancel_orders none response = .error .typeError ∧
    cancel_orders (some []) response = .error .indexError :=
  fun _ _ => ⟨rfl, rfl, rfl⟩

/-- C3: a cancel-response entry yields a successful confirmation exactly
when it lacks an error field and reports status Canceled, or carries the
already-Filled error string (confirmation status FILLED), or the
already-Canceled error string (confirmation status CANCELLED); any other
error string, and any other status on an entry lacking an error field,
raises carrying the offending value. -/
theorem classifyCancelEntry_spec (i : CEntry) :
    ((∃ k c, classifyCancelEntry i = .ok (some (k, c))) ↔
      ((i.error = none ∧ i.ordStatus = "Canceled") ∨
        i.error = some (some cancelFilledMsg) ∨
        i.error = some (some cancelCanceledMsg))) ∧
    (i.error = some (some cancelFilledMsg) →
      classifyCancelEntry i = .ok (some (i.orderID,
        ⟨i.orderID, i.clOrdID, "FILLED", i.ordType, cancelPrice i⟩))) ∧
    (i.error = some (some cancelCanceledMsg) →
      classifyCancelEntry i = .ok (some (i.orderID,
        ⟨i.orderID, i.clOrdID, "CANCELLED", i.ordType, cancelPrice i⟩))) ∧
    (i.error = none → i.ordStatus = "Canceled" →
      classifyCancelEntry i = .ok (some (i.orderID,
        ⟨i.orderID, i.clOrdID, "CANCELLED", i.ordType, cancelPrice i⟩))) ∧
    (∀ s, i.error = some (some s) → s ≠ cancelFilledMsg → s ≠ cancelCanceledMsg →
      classifyCancelEntry i = .error (.excStr s)) ∧
    (i.error = none → i.ordStatus ≠ "Canceled" →
      classifyCancelEntry i = .error (.excStr i.ordStatus)) := by
  obtain ⟨oid, cid, otype, pr, spx, ost, err⟩ := i
  match err with
  | none =>
      by_cases hc : ost = "Canceled" <;>
        simp [classifyCancelEntry, cancelPrice, hc]
  | some none =>
      simp [classifyCancelEntry]
  | some (some s) =>
      by_cases hf : s = cancelFilledMsg
      · subst hf
        simp [classifyCancelEntry, cancelPrice, cancelFilledMsg, cancelCanceledMsg]
      · by_cases hk : s = cancelCanceledMsg
        · subst hk
          simp [classifyCancelEntry, cancelPrice, cancelCanceledMsg, cancelFilledMsg]
        · simp [classifyCancelEntry, cancelPrice,
            show s ≠ "Unable to cancel order due to existing state: Filled" from hf,
            show s ≠ "Unable to cancel order due to existing state: Canceled" from hk,
            hf, hk]

theorem classifyCancelEntry_spec_witness :
    classifyCancelEntry ⟨"v1", "c1", "Limit", some 100, none, "New",
      some (some "The system is currently overloaded")⟩ =
      .error (.excStr "The system is currently overloaded") :=
  (classifyCancelEntry_spec _).2.2.2.2.1 "The system is currently overloaded"
    rfl (by decide) (by decide)

/-! ## Venue status / order-type normalization (src/bitmex.py)

`get_orders`, `get_executions` and `place_bulk_orders` each contain the
same if/elif chain over `res['ordStatus']` (resp. `res['ordType']`);
it is embedded once and used by all three embeddings below. -/

/-- The `ordStatus` classification chain shared by `get_orders`,
`get_executions` and `place_bulk_orders`: four known venue values,
anything else raises carrying the offending value. -/
def classifyOrdStatus (s : String) : Except PyErr String :=
  if s = "Filled" then .ok "FILLED"
  else if s = "Canceled" then .ok "CANCELLED"
  else if s = "New" then .ok "NEW"
  else if s = "PartiallyFilled" then .ok "PARTIAL"
  else .error (.excStr s)

/-- The `ordType` classification chain shared by `get_orders` and
`get_executions`. -/
def classifyOrdType (s : String) : Except PyErr String :=
  if s = "Limit" then .ok "LIMIT"
  else if s = "Market" then .ok "MARKET"
  else if s = "StopLimit" then .ok "STOP_LIMIT"
  else if s = "Stop" then .ok "STOP"
  else .error (.excStr s)

/-- C6: the status normalization maps exactly the four known venue values
to the four canonical statuses and raises on any other string, carrying
the offending value, never defaulting. -/
theorem classifyOrdStatus_spec (s : String) :
    (classifyOrdStatus s = .ok "FILLED" ↔ s = "Filled") ∧
    (classifyOrdStatus s = .ok "CANCELLED" ↔ s = "Canceled") ∧
    (classifyOrdStatus s = .ok "NEW" ↔ s = "New") ∧
    (classifyOrdStatus s = .ok "PARTIAL" ↔ s = "PartiallyFilled") ∧
    (s ∉ ["Filled", "Canceled", "New", "PartiallyFilled"] →
      classifyOrdStatus s = .error (.excStr s)) := by
  by_cases h1 : s = "Filled"
  · subst h1; simp [classifyOrdStatus]
  by_cases h2 : s = "Canceled"
  · subst h2; simp [classifyOrdStatus]
  by_cases h3 : s = "New"
  · subst h3; simp [classifyOrdStatus]
  by_cases h4 : s = "PartiallyFilled"
  · subst h4; simp [classifyOrdStatus]
  · simp [classifyOrdStatus, h1, h2, h3, h4]

theorem classifyOrdStatus_spec_witness :
    classifyOrdStatus "Expired" = .error (.excStr "Expired") :=
  (classifyOrdStatus_spec "Expired").2.2.2.2 (by decide)

/-! ## Metatype derivation in `get_orders` (src/bitmex.py) -/

/-- Python's `text.split("\x5cn")` on the character list of the string
(split at every newline, adjacent separators produce empty parts). -/
def splitNl : List Char → List (List Char)
  | [] => [[]]
  | c :: rest =>
      if c = '\n' then [] :: splitNl rest
      else
        match splitNl rest with
        | [] => [[c]]
        | g :: gs => (c :: g) :: gs

lemma splitNl_ne_nil (cs : List Char) : splitNl cs ≠ [] := by
  induction cs with
  | nil => simp [splitNl]
  | cons c rest ih =>
      by_cases h : c = '\n'
      · simp [splitNl, h]
      · simp only [splitNl, if_neg h]
        cases e : splitNl rest with
        | nil => simp
        | cons g gs => simp

lemma splitNl_length_two {cs : List Char} (h : '\n' ∈ cs) :
    2 ≤ (splitNl cs).length := by
  induction cs with
  | nil => cases h
  | cons c rest ih =>
      by_cases hc : c = '\n'
      · have h1 := splitNl_ne_nil rest
        simp only [splitNl, if_pos hc, List.length_cons]
        have : 1 ≤ (splitNl rest).length := List.length_pos.mpr h1
        omega
      · have hm : '\n' ∈ rest := by
          cases h with
          | head => exact absurd rfl hc
          | tail _ h => exact h
        have h2 := ih hm
        simp only [splitNl, if_neg hc]
        cases e : splitNl rest with
        | nil => exact absurd e (splitNl_ne_nil rest)
        | cons g gs =>
            rw [e] at h2
            simp only [List.length_cons] at h2 ⊢
            omega

/-- The metatype derivation of `get_orders`: second line when the text
field holds a line break, the text itself when it is one of the four
known labels, null otherwise.  The `indexError` branch models Python's
`text.split("\x5cn")[1]`; it is proved unreachable. -/
def metatypeOf (text : String) : Except PyErr (Option String) :=
  if '\n' ∈ text.data then
    match (splitNl text.data).get? 1 with
    | some l => .ok (some ⟨l⟩)
    | none => .error .indexError
  else if text = "ENTRY" ∨ text = "STOP" ∨ text = "TAKE_PROFIT" ∨
      text = "FINAL_TAKE_PROFIT" then
    .ok (some text)
  else
    .ok none

/-- C9: the metatype derivation never raises; it returns the second line
of the annotated text when a line break is present, the text itself when
it is one of the four known labels, and null otherwise. -/
theorem metatypeOf_spec (text : String) :
    (∃ m, metatypeOf text = .ok m) ∧
    ('\n' ∈ text.data →
      metatypeOf text = .ok (some ⟨(splitNl text.data).getD 1 []⟩)) ∧
    ('\n' ∉ text.data →
      text = "ENTRY" ∨ text = "STOP" ∨ text = "TAKE_PROFIT" ∨
        text = "FINAL_TAKE_PROFIT" →
      metatypeOf text = .ok (some text)) ∧
    ('\n' ∉ text.data →
      ¬(text = "ENTRY" ∨ text = "STOP" ∨ text = "TAKE_PROFIT" ∨
        text = "FINAL_TAKE_PROFIT") →
      metatypeOf text = .ok none) := by
  by_cases hn : '\n' ∈ text.data
  · have h2 := splitNl_length_two hn
    have h1 : 1 < (splitNl text.data).length := by omega
    have e : (splitNl text.data).get? 1 = some ((splitNl text.data).get ⟨1, h1⟩) :=
      List.get?_eq_get h1
    refine ⟨⟨some ⟨(splitNl text.data).get ⟨1, h1⟩⟩, ?_⟩, fun _ => ?_,
      fun hn' => absurd hn hn', fun hn' => absurd hn hn'⟩
    · simp only [metatypeOf, if_pos hn, e]
    · simp only [metatypeOf, if_pos hn, e, List.getD, e, Option.getD_some]
  · by_cases hl : text = "ENTRY" ∨ text = "STOP" ∨ text = "TAKE_PROFIT" ∨
        text = "FINAL_TAKE_PROFIT"
    · refine ⟨⟨some text, ?_⟩, fun hn' => absurd hn' hn, fun _ _ => ?_,
        fun _ hl' => absurd hl hl'⟩ <;>
        simp only [metatypeOf, if_neg hn, if_pos hl]
    · refine ⟨⟨none, ?_⟩, fun hn' => absurd hn' hn, fun _ hl' => absurd hl' hl,
        fun _ _ => ?_⟩ <;>
        simp only [metatypeOf, if_neg hn, if_neg hl]

theorem metatypeOf_spec_witness :
    metatypeOf "ENTRY\nTAKE_PROFIT" = .ok (some "TAKE_PROFIT") ∧
    metatypeOf "STOP" = .ok (some "STOP") ∧
    metatypeOf "arbitrary venue comment" = .ok none :=
  ⟨(metatypeOf_spec "ENTRY\nTAKE_PROFIT").2.1 (by decide),
   (metatypeOf_spec "STOP").2.2.1 (by decide) (by decide),
   (metatypeOf_spec "arbitrary venue comment").2.2.2 (by decide) (by decide)⟩

/-! ## Position query (`get_position`, src/bitmex.py) -/

/-- One entry of the venue positions response.  `openingTimestamp` is
copied verbatim by the code, so it stays a string. -/
structure PosEntry where
  symbol : String
  currentQty : Int
  isOpen : Bool
  avgEntryPrice : Option Int
  quoteCurrency : String
  openingTimestamp : String
  openingQty : Int
  deriving DecidableEq, Repr

/-- The normalized position record returned by `get_position`. -/
structure PositionRec where
  size : Int
  avg_entry_price : Option Int
  symbol : String
  direction : String
  currency : String
  opening_timestamp : String
  opening_size : Int
  status : String
  deriving DecidableEq, Repr

/-- Embeds `get_position` (src/bitmex.py): first response entry matching the
requested symbol is normalized and returned; no match falls off the loop
and returns Python `None`. -/
def get_position (response : List PosEntry) (symbol : String) : Option PositionRec :=
  match response with
  | [] => none
  | pos :: rest =>
      if pos.symbol = symbol then
        some
          { size := pos.currentQty
            avg_entry_price := pos.avgEntryPrice
            symbol := symbol
            direction := if pos.currentQty > 0 then "LONG" else "SHORT"
            currency := pos.quoteCurrency
            opening_timestamp := pos.openingTimestamp
            opening_size := pos.openingQty
            status := if pos.isOpen = true then "OPEN" else "CLOSED" }
      else get_position rest symbol

/-- C10: `get_position` returns null (not an error) when no entry matches
the requested symbol, and a matching entry yields direction LONG exactly
when its signed size is strictly positive, so a flat (zero-size) entry is
reported with direction SHORT. -/
theorem get_position_spec (response : List PosEntry) (symbol : String) :
    ((∀ p ∈ response, p.symbol ≠ symbol) → get_position response symbol = none) ∧
    (∀ r, get_position response symbol = some r →
      r.symbol = symbol ∧ (r.direction = "LONG" ↔ 0 < r.size) ∧
        (r.size = 0 → r.direction = "SHORT")) := by
  induction response with
  | nil => exact ⟨fun _ => rfl, fun r h => by cases h⟩
  | cons pos rest ih =>
      constructor
      · intro hall
        rw [show get_position (pos :: rest) symbol =
              (if pos.symbol = symbol then _ else get_position rest symbol) from rfl,
          if_neg (hall pos (.head _))]
        exact ih.1 fun p hp => hall p (.tail _ hp)
      · intro r h
        by_cases hs : pos.symbol = symbol
        · rw [show get_position (pos :: rest) symbol =
                (if pos.symbol = symbol then some
                  { size := pos.currentQty
                    avg_entry_price := pos.avgEntryPrice
                    symbol := symbol
                    direction := if pos.currentQty > 0 then "LONG" else "SHORT"
                    currency := pos.quoteCurrency
                    opening_timestamp := pos.openingTimestamp
                    opening_size := pos.openingQty
                    status := if pos.isOpen = true then "OPEN" else "CLOSED" }
                 else get_position rest symbol) from rfl, if_pos hs] at h
          injection h with h
          subst h
          refine ⟨rfl, ?_, ?_⟩
          · by_cases hq : pos.currentQty > 0
            · simp [hq]
            · simp only [if_neg hq]
              constructor
              · intro he; exact absurd he (by decide)
              · intro hp; exact absurd hp hq
          · intro hz
            have hz' : pos.currentQty = 0 := hz
            simp only
            rw [if_neg (by omega)]
        · rw [show get_position (pos :: rest) symbol =
                (if pos.symbol = symbol then _ else get_position rest symbol) from rfl,
            if_neg hs] at h
          exact ih.2 r h

theorem get_position_spec_witness :
    (get_position [⟨"XBTUSD", 0, true, some 9000, "USD", "ts0", 10⟩] "XBTUSD").map
        PositionRec.direction = some "SHORT" ∧
    get_position [⟨"ETHUSD", 5, true, none, "USD", "ts0", 5⟩] "XBTUSD" = none := by
  constructor
  · have h := (get_position_spec [⟨"XBTUSD", 0, true, some 9000, "USD", "ts0", 10⟩]
      "XBTUSD").2 ⟨0, some 9000, "XBTUSD", "SHORT", "USD", "ts0", 10, "OPEN"⟩ rfl
    rw [show get_position [⟨"XBTUSD", 0, true, some 9000, "USD", "ts0", 10⟩] "XBTUSD" =
        some ⟨0, some 9000, "XBTUSD", "SHORT", "USD", "ts0", 10, "OPEN"⟩ from rfl]
    simp [h.2.2 rfl]
  · exact (get_position_spec _ _).1 (by decide)

/-! ## Order and execution queries (`get_orders`, `get_executions`, src/bitmex.py)

Venue timestamps are modelled as already-parsed epoch integers
(`dateutil` parsing is an external collaborator), money fields as exact
numbers. -/

/-- One entry of the venue orders response. -/
structure VenueOrder where
  clOrdID : String
  orderID : String
  side : String
  ordStatus : String
  ordType : String
  text : String
  timestamp : Int
  price : Option Int
  avgPx : Option Int
  currency : String
  symbol : String
  orderQty : Int
  stopPx : Option Int
  deriving DecidableEq, Repr

/-- A normalized order record produced by `get_orders`. -/
structure OrderOut where
  order_id : String
  venue_id : String
  timestamp : Int
  price : Option Int
  avg_fill_price : Option Int
  currency : String
  venue : String
  symbol : String
  direction : String
  size : Int
  order_type : String
  metatype : Option String
  void_price : Option Int
  status : String
  deriving DecidableEq, Repr

/-- Embeds `get_orders` (src/bitmex.py): entries with an empty `clOrdID` are
skipped (Python string truthiness); each remaining entry is normalized
via the shared status, type and metatype derivations, which raise on
unknown vocabulary. -/
def get_orders (response : List VenueOrder) : Except PyErr (List OrderOut) :=
  match response with
  | [] => .ok []
  | res :: rest =>
      if res.clOrdID ≠ "" then do
        let fill ← classifyOrdStatus res.ordStatus
        let order_type ← classifyOrdType res.ordType
        let mt ← metatypeOf res.text
        let tail ← get_orders rest
        return { order_id := res.clOrdID
                 venue_id := res.orderID
                 timestamp := res.timestamp
                 price := res.price
                 avg_fill_price := res.avgPx
                 currency := res.currency
                 venue := "BitMEX"
                 symbol := res.symbol
                 direction := if res.side = "Buy" then "LONG" else "SHORT"
                 size := res.orderQty
                 order_type := order_type
                 metatype := mt
                 void_price := res.stopPx
                 status := fill } :: tail
      else get_orders rest

/-- One entry of the venue trade-history response. -/
structure ExecEntry where
  clOrdID : String
  orderID : String
  timestamp : Int
  avgPx : Option ℚ
  currency : String
  symbol : String
  side : String
  lastQty : Int
  ordType : String
  ordStatus : String
  lastLiquidityInd : String
  commission : ℚ
  execComm : ℚ
  deriving DecidableEq, Repr

/-- A normalized execution record produced by `get_executions`. -/
structure ExecOut where
  order_id : String
  venue_id : String
  timestamp : Int
  avg_exc_price : Option ℚ
  currency : String
  symbol : String
  direction : String
  size : Int
  order_type : String
  fee_type : String
  fee_amt : ℚ
  total_fee : ℚ
  status : String
  deriving DecidableEq, Repr

/-- Python's `a / b` on numbers where the left operand is always present:
`TypeError` when `b` is null, `ZeroDivisionError` when `b` is zero. -/
def pyDiv (a : ℚ) (b : Option ℚ) : Except PyErr ℚ :=
  match b with
  | none => .error .typeError
  | some b => if b = 0 then .error .zeroDivisionError else .ok (a / b)

/-- Embeds `get_executions` (src/bitmex.py): normalizes each fill via the shared
status and type chains (raising on unknown vocabulary) and charges the
fee as `execComm / avgPx`. -/
def get_executions (response : List ExecEntry) : Except PyErr (List ExecOut) :=
  match response with
  | [] => .ok []
  | res :: rest => do
      let fill ← classifyOrdStatus res.ordStatus
      let order_type ← classifyOrdType res.ordType
      let total_fee ← pyDiv res.execComm res.avgPx
      let tail ← get_executions rest
      return { order_id := res.clOrdID
               venue_id := res.orderID
               timestamp := res.timestamp
               avg_exc_price := res.avgPx
               currency := res.currency
               symbol := res.symbol
               direction := if res.side = "Buy" then "LONG" else "SHORT"
               size := res.lastQty
               order_type := order_type
               fee_type := if res.lastLiquidityInd = "RemovedLiquidity"
                 then "TAKER" else "MAKER"
               fee_amt := res.commission
               total_fee := total_fee
               status := fill } :: tail

/-! ## Order formatting (`format_orders`, src/bitmex.py) -/

/-- Modelled from the spec: `round_increment` lives on the `Exchange`
base class, which is not among the sources.  The spec's round-trip
property (§8) has adapter formatting carry the intent's price into the
stop-trigger field unchanged and mentions no price adjustment, so the
missing function is modelled as the identity on its price argument. -/
def round_increment (price : Option Int) (_symbol : String) : Option Int :=
  price

/-- An order intent, with the exact field set read by
`place_bulk_orders` and `format_orders`. -/
structure OrderIntent where
  trade_id : String
  order_id : String
  venue : String
  symbol : String
  order_type : String
  metatype : Option String
  void_price : Option Int
  direction : String
  reduce_only : Bool
  post_only : Bool
  batch_size : Int
  size : Int
  trail : Bool
  price : Option Int
  deriving DecidableEq, Repr

/-- A venue-ready order payload as built by `format_orders`. -/
structure VenuePayload where
  symbol : String
  side : String
  orderQty : Option Int
  price : Option Int
  stopPx : Option Int
  clOrdID : String
  ordType : String
  timeInForce : Option String
  execInst : Option String
  text : Option String
  deriving DecidableEq, Repr

/-- The order-type dispatch of the `format_orders` loop body, producing
`(ordType, price, stopPx, timeInForce)`.  Unknown order types raise. -/
def formatBranch (order : OrderIntent) :
    Except PyErr (String × Option Int × Option Int × Option String) :=
  let price := round_increment order.price order.symbol
  if order.order_type = "LIMIT" then
    .ok ("Limit", price, (none : Option Int), some "GoodTillCancel")
  else if order.order_type = "MARKET" then
    .ok ("Market", (none : Option Int), none, some "ImmediateOrCancel")
  else if order.order_type = "STOP_LIMIT" then
    .ok ("StopLimit", price, none, some "GoodTillCancel")
  else if order.order_type = "STOP" then
    .ok ("Stop", (none : Option Int), price, some "ImmediateOrCancel")
  else
    .error (.excStr "Incorrect order type specified.")

/-- Embeds `format_orders` (src/bitmex.py): adapter-specific order formatting. -/
def format_orders (orders : List OrderIntent) : Except PyErr (List VenuePayload) :=
  match orders with
  | [] => .ok []
  | order :: rest => do
      let side := if order.direction = "LONG" then "Buy" else "Sell"
      let orderQty := round_increment (some order.size) order.symbol
      let (ordType, price, stopPx, timeInForce) ← formatBranch order
      let tail ← format_orders rest
      return { symbol := order.symbol
               side := side
               orderQty := orderQty
               price := price
               stopPx := stopPx
               clOrdID := order.order_id
               ordType := ordType
               timeInForce := timeInForce
               execInst := none
               text := order.metatype } :: tail

/-- C7: a STOP intent with price P is formatted with stop-trigger
(`stopPx`) = P, a null resting limit price, and immediate-or-cancel time
in force; a MARKET intent is formatted with a null limit price and
immediate-or-cancel time in force. -/
theorem format_orders_stop_market (o : OrderIntent) :
    (o.order_type = "STOP" →
      format_orders [o] = .ok
        [{ symbol := o.symbol
           side := if o.direction = "LONG" then "Buy" else "Sell"
           orderQty := some o.size
           price := none
           stopPx := o.price
           clOrdID := o.order_id
           ordType := "Stop"
           timeInForce := some "ImmediateOrCancel"
           execInst := none
           text := o.metatype }]) ∧
    (o.order_type = "MARKET" →
      format_orders [o] = .ok
        [{ symbol := o.symbol
           side := if o.direction = "LONG" then "Buy" else "Sell"
           orderQty := some o.size
           price := none
           stopPx := none
           clOrdID := o.order_id
           ordType := "Market"
           timeInForce := some "ImmediateOrCancel"
           execInst := none
           text := o.metatype }]) := by
  constructor
  · intro h
    simp only [format_orders, formatBranch, round_increment, h]
    rfl
  · intro h
    simp only [format_orders, formatBranch, round_increment, h]
    rfl

theorem format_orders_stop_market_witness :
    format_orders [⟨"t1", "o1", "BitMEX", "XBTUSD", "STOP", some "STOP",
        some 8900, "SHORT", true, false, 3, 100, false, some 9000⟩] = .ok
      [{ symbol := "XBTUSD"
         side := "Sell"
         orderQty := some 100
         price := none
         stopPx := some 9000
         clOrdID := "o1"
         ordType := "Stop"
         timeInForce := some "ImmediateOrCancel"
         execInst := none
         text := some "STOP" }] := by
  have h := (format_orders_stop_market ⟨"t1", "o1", "BitMEX", "XBTUSD", "STOP",
    some "STOP", some 8900, "SHORT", true, false, 3, 100, false, some 9000⟩).1 rfl
  simpa using h

/-! ## Bulk order submission (`place_bulk_orders`, src/bitmex.py)

The venue is an oracle: `marketResp` maps each individually-submitted
market order to its HTTP response, `batchResp` maps the batch payload to
the batch response.  A parsed JSON body is either a list of confirmation
dicts or a single one; `errorMessage` carries
`r.json()['error']['message']` where the code reads it. -/

/-- A parsed per-order confirmation dict, as read by the matching loop of
`place_bulk_orders`. -/
structure Conf where
  clOrdID : String
  ordStatus : String
  timestamp : Int
  avgPx : Option Int
  currency : String
  orderID : String
  price : Option Int
  stopPx : Option Int
  deriving DecidableEq, Repr

/-- A venue HTTP response to an order submission. -/
structure VenueResponse where
  status_code : Nat
  jsonBody : (List Conf) ⊕ Conf
  errorMessage : Option String
  deriving DecidableEq, Repr

/-- The confirmed order record built by `place_bulk_orders` from a
matched intent/confirmation pair. -/
structure OrderRecord where
  trade_id : String
  order_id : String
  venue : String
  symbol : String
  order_type : String
  metatype : Option String
  void_price : Option Int
  direction : String
  reduce_only : Bool
  post_only : Bool
  batch_size : Int
  size : Int
  trail : Bool
  timestamp : Int
  avg_fill_price : Option Int
  currency : String
  venue_id : String
  price : Option Int
  status : String
  deriving DecidableEq, Repr

/-- Python `m_o = [o for o in orders if o['order_type'] == "MARKET"]`. -/
def marketOrders (orders : List OrderIntent) : List OrderIntent :=
  orders.filter (fun o => o.order_type = "MARKET")

/-- Python `nm_o = [o for o in orders if o not in m_o]`. -/
def nonMarketOrders (orders : List OrderIntent) : List OrderIntent :=
  orders.filter (fun o => o ∉ marketOrders orders)

/-- The payload of `place_single_order`: `format_orders([order])[0]`. -/
def place_single_payload (o : OrderIntent) : Except PyErr VenuePayload := do
  let l ← format_orders [o]
  match l.head? with
  | some p => .ok p
  | none => .error .indexError

/-- Sequential single-order submissions: one formatted payload per market
order, in input order. -/
def mapPayloads : List OrderIntent → Except PyErr (List VenuePayload)
  | [] => .ok []
  | o :: rest => do
      let p ← place_single_payload o
      let tail ← mapPayloads rest
      return p :: tail

/-- The `for r in responses + [response]` classification loop of
`place_bulk_orders`.  A `none` element is Python's `None` placed in the
iterated list; the loop reads `r.status_code` on it, which raises
`AttributeError`.  200-responses contribute their parsed confirmations,
401-404 raise with the reported message, anything else is only logged. -/
def collectConfs : List (Option VenueResponse) → Except PyErr (List Conf)
  | [] => .ok []
  | none :: _ => .error .attributeError
  | some r :: rest =>
      if r.status_code = 200 then
        match r.jsonBody with
        | .inl l => do
            let tail ← collectConfs rest
            return l ++ tail
        | .inr c => do
            let tail ← collectConfs rest
            return c :: tail
      else if 401 ≤ r.status_code ∧ r.status_code ≤ 404 then
        match r.errorMessage with
        | some m => .error (.excCode r.status_code m)
        | none => .error .keyError
      else
        collectConfs rest

/-- Inner loop of the matching phase: all records produced from one
confirmation, one per input order whose `order_id` equals the
confirmation's `clOrdID`. -/
def recordsForConf (orders : List OrderIntent) (res : Conf) :
    Except PyErr (List OrderRecord) :=
  match orders with
  | [] => .ok []
  | order :: rest =>
      if order.order_id = res.clOrdID then do
        let fill ← classifyOrdStatus res.ordStatus
        let price := match res.stopPx with
          | some v => if v = 0 then res.price else some v
          | none => res.price
        let tail ← recordsForConf rest res
        return { trade_id := order.trade_id
                 order_id := order.order_id
                 venue := order.venue
                 symbol := order.symbol
                 order_type := order.order_type
                 metatype := order.metatype
                 void_price := order.void_price
                 direction := order.direction
                 reduce_only := order.reduce_only
                 post_only := order.post_only
                 batch_size := order.batch_size
                 size := order.size
                 trail := order.trail
                 timestamp := res.timestamp
                 avg_fill_price := res.avgPx
                 currency := res.currency
                 venue_id := res.orderID
                 price := price
                 status := fill } :: tail
      else recordsForConf rest res

/-- Outer loop of the matching phase, over all collected confirmations. -/
def matchConfs (orders : List OrderIntent) : List Conf →
    Except PyErr (List OrderRecord)
  | [] => .ok []
  | res :: rest => do
      let here ← recordsForConf orders res
      let tail ← matchConfs orders rest
      return here ++ tail

/-- The observable outcome of `place_bulk_orders`: the single-order
requests issued, the batch request (if any), the collected
`order_confirmations`, and the returned `updated_orders`. -/
structure BulkOutcome where
  marketRequests : List VenuePayload
  batchRequest : Option (List VenuePayload)
  confirmations : List Conf
  records : List OrderRecord
  deriving DecidableEq, Repr

/-- Embeds `place_bulk_orders` (src/bitmex.py). -/
def place_bulk_orders (orders : List OrderIntent)
    (marketResp : OrderIntent → VenueResponse)
    (batchResp : List VenuePayload → VenueResponse) :
    Except PyErr BulkOutcome := do
  let m_o := marketOrders orders
  let nm_o := nonMarketOrders orders
  let marketReqs ← mapPayloads m_o
  let responses := m_o.map (fun o => some (marketResp o))
  let step ←
    if nm_o.isEmpty then
      Except.ok ((none : Option (List VenuePayload)), (none : Option VenueResponse))
    else do
      let payload ← format_orders nm_o
      pure (some payload, some (batchResp payload))
  let confs ← collectConfs (responses ++ [step.2])
  let records ← matchConfs orders confs
  return ⟨marketReqs, step.1, confs, records⟩

lemma nonMarketOrders_eq (orders : List OrderIntent) :
    nonMarketOrders orders = orders.filter (fun o => ¬ o.order_type = "MARKET") := by
  unfold nonMarketOrders
  apply List.filter_congr
  intro o ho
  simp [marketOrders, List.mem_filter, ho]

lemma mapPayloads_length {l : List OrderIntent} {ps : List VenuePayload}
    (h : mapPayloads l = .ok ps) : ps.length = l.length := by
  induction l generalizing ps with
  | nil => injection h with h; subst h; rfl
  | cons o rest ih =>
      simp only [mapPayloads, bind, Except.bind] at h
      cases e1 : place_single_payload o with
      | error _ => rw [e1] at h; cases h
      | ok p =>
          rw [e1] at h
          cases e2 : mapPayloads rest with
          | error _ => rw [e2] at h; cases h
          | ok tail =>
              rw [e2] at h
              injection h with h
              subst h
              simp [ih e2]

lemma format_orders_length {l : List OrderIntent} {ps : List VenuePayload}
    (h : format_orders l = .ok ps) : ps.length = l.length := by
  induction l generalizing ps with
  | nil => injection h with h; subst h; rfl
  | cons o rest ih =>
      simp only [format_orders, bind, Except.bind] at h
      cases e1 : formatBranch o with
      | error _ => rw [e1] at h; cases h
      | ok q =>
          rw [e1] at h
          cases e2 : format_orders rest with
          | error _ => rw [e2] at h; cases h
          | ok tail =>
              rw [e2] at h
              injection h with h
              subst h
              simp [ih e2]

lemma format_orders_ids {l : List OrderIntent} {ps : List VenuePayload}
    (h : format_orders l = .ok ps) :
    ps.map (fun p => p.clOrdID) = l.map (fun o => o.order_id) := by
  induction l generalizing ps with
  | nil => injection h with h; subst h; rfl
  | cons o rest ih =>
      simp only [format_orders, bind, Except.bind] at h
      cases e1 : formatBranch o with
      | error _ => rw [e1] at h; cases h
      | ok q =>
          rw [e1] at h
          cases e2 : format_orders rest with
          | error _ => rw [e2] at h; cases h
          | ok tail =>
              rw [e2] at h
              injection h with h
              subst h
              simp [ih e2]

lemma recordsForConf_ids {orders : List OrderIntent} {c : Conf}
    {recs : List OrderRecord} (h : recordsForConf orders c = .ok recs) :
    recs.map (fun r => r.order_id) =
      (orders.filter (fun o => o.order_id = c.clOrdID)).map (fun o => o.order_id) := by
  induction orders generalizing recs with
  | nil => injection h with h; subst h; rfl
  | cons o rest ih =>
      by_cases ho : o.order_id = c.clOrdID
      · simp only [recordsForConf, if_pos ho, bind, Except.bind] at h
        cases e1 : classifyOrdStatus c.ordStatus with
        | error _ => rw [e1] at h; cases h
        | ok fill =>
            rw [e1] at h
            cases e2 : recordsForConf rest c with
            | error _ => rw [e2] at h; cases h
            | ok tail =>
                rw [e2] at h
                injection h with h
                subst h
                simp [List.filter_cons, ho, ih e2]
      · simp only [recordsForConf, if_neg ho] at h
        simp [List.filter_cons, ho, ih h]

lemma filter_id_of_nodup (orders : List OrderIntent) (b : String)
    (h : (orders.map (fun o => o.order_id)).Nodup) :
    (orders.filter (fun o => o.order_id = b)).map (fun o => o.order_id) =
      if b ∈ orders.map (fun o => o.order_id) then [b] else [] := by
  induction orders with
  | nil => simp
  | cons o rest ih =>
      simp only [List.map_cons, List.nodup_cons] at h
      obtain ⟨hno, hrest⟩ := h
      by_cases ho : o.order_id = b
      · have hb : b ∉ rest.map (fun o => o.order_id) := ho ▸ hno
        have hfil : rest.filter (fun o => o.order_id = b) = [] := by
          rw [List.filter_eq_nil_iff]
          intro x hx hxb
          exact hb (by
            simp only [decide_eq_true_eq] at hxb
            exact hxb ▸ List.mem_map_of_mem (fun o => o.order_id) hx)
        simp [List.filter_cons, ho, hfil, List.mem_cons]
      · have hfc : (o :: rest).filter (fun o => o.order_id = b) =
            rest.filter (fun o => o.order_id = b) := by
          rw [List.filter_cons]
          simp [ho]
        have hmem : (b ∈ (o :: rest).map (fun o => o.order_id)) ↔
            (b ∈ rest.map (fun o => o.order_id)) := by
          constructor
          · intro hx
            rcases List.mem_cons.mp hx with he | hx
            · exact absurd he.symm ho
            · exact hx
          · exact fun hx => List.mem_cons_of_mem _ hx
        rw [hfc, ih hrest]
        by_cases hb : b ∈ rest.map (fun o => o.order_id)
        · rw [if_pos hb, if_pos (hmem.mpr hb)]
        · rw [if_neg hb, if_neg (fun hx => hb (hmem.mp hx))]

lemma matchConfs_ids {orders : List OrderIntent} {confs : List Conf}
    {recs : List OrderRecord} (hids : (orders.map (fun o => o.order_id)).Nodup)
    (h : matchConfs orders confs = .ok recs) :
    recs.map (fun r => r.order_id) =
      (confs.map (fun c => c.clOrdID)).filter
        (fun x => x ∈ orders.map (fun o => o.order_id)) := by
  induction confs generalizing recs with
  | nil => injection h with h; subst h; rfl
  | cons c rest ih =>
      simp only [matchConfs, bind, Except.bind] at h
      cases e1 : recordsForConf orders c with
      | error _ => rw [e1] at h; cases h
      | ok here =>
          rw [e1] at h
          cases e2 : matchConfs orders rest with
          | error _ => rw [e2] at h; cases h
          | ok tail =>
              rw [e2] at h
              injection h with h
              subst h
              have h1 := recordsForConf_ids e1
              rw [filter_id_of_nodup orders c.clOrdID hids] at h1
              simp only [List.map_append, h1, ih e2, List.map_cons,
                List.filter_cons]
              by_cases hb : c.clOrdID ∈ orders.map (fun o => o.order_id)
              · simp [hb]
              · simp [hb]

/-- C4: on a mixed MARKET / non-MARKET input, `place_bulk_orders` issues
exactly one single-order request per MARKET order and exactly one batch
request whose payloads cover all non-MARKET orders in order; and when
input order ids and confirmation ids are duplicate-free, the returned
records' order ids are duplicate-free and are exactly the input order
ids that received a collected (successful) confirmation, matched solely
by order id. -/
theorem place_bulk_orders_spec
    (orders : List OrderIntent) (marketResp : OrderIntent → VenueResponse)
    (batchResp : List VenuePayload → VenueResponse) (out : BulkOutcome)
    (hm : ∃ o ∈ orders, o.order_type = "MARKET")
    (hnm : ∃ o ∈ orders, ¬ o.order_type = "MARKET")
    (hids : (orders.map (fun o => o.order_id)).Nodup)
    (hcids : (out.confirmations.map (fun c => c.clOrdID)).Nodup)
    (h : place_bulk_orders orders marketResp batchResp = .ok out) :
    out.marketRequests.length = (marketOrders orders).length ∧
    (∃ ps, out.batchRequest = some ps ∧
      format_orders (nonMarketOrders orders) = .ok ps ∧
      ps.length = (nonMarketOrders orders).length ∧
      ps.map (fun p => p.clOrdID) = (nonMarketOrders orders).map (fun o => o.order_id) ∧
      nonMarketOrders orders = orders.filter (fun o => ¬ o.order_type = "MARKET")) ∧
    (out.records.map (fun r => r.order_id)).Nodup ∧
    (∀ x : String, x ∈ out.records.map (fun r => r.order_id) ↔
      (x ∈ orders.map (fun o => o.order_id) ∧
        x ∈ out.confirmations.map (fun c => c.clOrdID))) := by
  have hne : ¬((nonMarketOrders orders).isEmpty = true) := by
    obtain ⟨o, ho, hot⟩ := hnm
    have hmem : o ∈ nonMarketOrders orders := by
      rw [nonMarketOrders_eq]
      exact List.mem_filter.mpr ⟨ho, by simpa using hot⟩
    simp [List.isEmpty_iff, List.ne_nil_of_mem hmem]
  simp only [place_bulk_orders, bind, Except.bind, pure, Except.pure, if_neg hne] at h
  cases e1 : mapPayloads (marketOrders orders) with
  | error _ => rw [e1] at h; cases h
  | ok mreqs =>
      rw [e1] at h
      cases e2 : format_orders (nonMarketOrders orders) with
      | error _ => rw [e2] at h; cases h
      | ok ps =>
          rw [e2] at h
          simp only [Except.bind] at h
          cases e3 : collectConfs
              ((marketOrders orders).map (fun o => some (marketResp o)) ++
                [some (batchResp ps)]) with
          | error _ => rw [e3] at h; cases h
          | ok confs =>
              rw [e3] at h
              dsimp only at h
              cases e4 : matchConfs orders confs with
              | error _ => rw [e4] at h; cases h
              | ok recs =>
                  rw [e4] at h
                  injection h with h
                  subst h
                  refine ⟨mapPayloads_length e1,
                    ⟨ps, rfl, rfl, format_orders_length e2, format_orders_ids e2,
                      nonMarketOrders_eq orders⟩, ?_, ?_⟩
                  · rw [matchConfs_ids hids e4]
                    exact List.Nodup.filter _ hcids
                  · intro x
                    rw [matchConfs_ids hids e4]
                    simp [List.mem_filter, and_comm]

/-- Concrete market order used to exercise `place_bulk_orders`. -/
def wMarketOrder : OrderIntent :=
  ⟨"t1", "m1", "BitMEX", "XBTUSD", "MARKET", none, none, "LONG",
    false, false, 2, 10, false, none⟩

/-- Concrete limit order used to exercise `place_bulk_orders`. -/
def wLimitOrder : OrderIntent :=
  ⟨"t1", "l1", "BitMEX", "XBTUSD", "LIMIT", some "ENTRY", none, "LONG",
    false, false, 2, 10, false, some 9000⟩

/-- Confirmation the oracle venue returns for the market order. -/
def wConfM : Conf := ⟨"m1", "Filled", 110, some 9050, "XBt", "vm1", none, none⟩

/-- Confirmation the oracle venue returns for the limit order. -/
def wConfL : Conf := ⟨"l1", "New", 111, none, "XBt", "vl1", some 9000, none⟩

/-- Oracle responses for single market submissions. -/
def wMarketResp : OrderIntent → VenueResponse := fun _ => ⟨200, Sum.inr wConfM, none⟩

/-- Oracle response for the batch submission. -/
def wBatchResp : List VenuePayload → VenueResponse := fun _ => ⟨200, Sum.inl [wConfL], none⟩

/-- The outcome `place_bulk_orders` computes on the concrete run. -/
def wOutcome : BulkOutcome :=
  ⟨[⟨"XBTUSD", "Buy", some 10, none, none, "m1", "Market",
      some "ImmediateOrCancel", none, none⟩],
   some [⟨"XBTUSD", "Buy", some 10, some 9000, none, "l1", "Limit",
      some "GoodTillCancel", none, some "ENTRY"⟩],
   [wConfM, wConfL],
   [⟨"t1", "m1", "BitMEX", "XBTUSD", "MARKET", none, none, "LONG", false, false,
      2, 10, false, 110, some 9050, "XBt", "vm1", none, "FILLED"⟩,
    ⟨"t1", "l1", "BitMEX", "XBTUSD", "LIMIT", some "ENTRY", none, "LONG", false,
      false, 2, 10, false, 111, none, "XBt", "vl1", some 9000, "NEW"⟩]⟩

theorem place_bulk_orders_spec_witness :
    wOutcome.marketRequests.length =
      (marketOrders [wMarketOrder, wLimitOrder]).length ∧
    (wOutcome.records.map (fun r => r.order_id)).Nodup ∧
    ("l1" ∈ wOutcome.records.map (fun r => r.order_id) ↔
      ("l1" ∈ [wMarketOrder, wLimitOrder].map (fun o => o.order_id) ∧
        "l1" ∈ wOutcome.confirmations.map (fun c => c.clOrdID))) := by
  have h := place_bulk_orders_spec [wMarketOrder, wLimitOrder] wMarketResp
    wBatchResp wOutcome (by decide) (by decide) (by decide) (by decide) (by decide)
  exact ⟨h.1, h.2.2.1, h.2.2.2 "l1"⟩

lemma place_single_payload_market_ok (o : OrderIntent)
    (h : o.order_type = "MARKET") : ∃ p, place_single_payload o = .ok p := by
  refine ⟨⟨o.symbol, if o.direction = "LONG" then "Buy" else "Sell", some o.size,
    none, none, o.order_id, "Market", some "ImmediateOrCancel", none, o.metatype⟩, ?_⟩
  simp only [place_single_payload, format_orders, formatBranch, round_increment,
    h, bind, Except.bind]
  rfl

lemma mapPayloads_market_ok (l : List OrderIntent)
    (h : ∀ o ∈ l, o.order_type = "MARKET") : ∃ ps, mapPayloads l = .ok ps := by
  induction l with
  | nil => exact ⟨[], rfl⟩
  | cons o rest ih =>
      obtain ⟨p, hp⟩ := place_single_payload_market_ok o (h o (.head _))
      obtain ⟨ps, hps⟩ := ih (fun x hx => h x (.tail _ hx))
      refine ⟨p :: ps, ?_⟩
      simp only [mapPayloads, bind, Except.bind, hp, hps]
      rfl

lemma collectConfs_hits_none (rs : List VenueResponse)
    (h : ∀ r ∈ rs, ¬(401 ≤ r.status_code ∧ r.status_code ≤ 404)) :
    collectConfs (rs.map some ++ [none]) = .error .attributeError := by
  induction rs with
  | nil => rfl
  | cons r rest ih =>
      have hr := h r (.head _)
      have hrest := fun x hx => h x (List.Mem.tail _ hx)
      by_cases h200 : r.status_code = 200
      · simp only [List.map_cons, List.cons_append, collectConfs, if_pos h200]
        cases hj : r.jsonBody with
        | inl l => simp [ih hrest, bind, Except.bind]
        | inr c => simp [ih hrest, bind, Except.bind]
      · simp only [List.map_cons, List.cons_append, collectConfs, if_neg h200,
          if_neg hr]
        exact ih hrest

/-- C5: when the input holds no non-MARKET orders, the batch `response`
variable stays null and is still appended to the iterated response list;
the status-code classification is applied to it without a guard, so the
whole call ends in the null-attribute error (and, in general, the
classification loop applied to a null response errors rather than
handling it). -/
theorem place_bulk_orders_null_batch
    (orders : List OrderIntent) (marketResp : OrderIntent → VenueResponse)
    (batchResp : List VenuePayload → VenueResponse)
    (hall : ∀ o ∈ orders, o.order_type = "MARKET")
    (hcode : ∀ o ∈ orders,
      ¬(401 ≤ (marketResp o).status_code ∧ (marketResp o).status_code ≤ 404)) :
    place_bulk_orders orders marketResp batchResp = .error .attributeError ∧
    (∀ rest, collectConfs (none :: rest) = .error .attributeError) := by
  constructor
  · have hnm : nonMarketOrders orders = [] := by
      rw [nonMarketOrders_eq, List.filter_eq_nil_iff]
      intro o ho
      simp [hall o ho]
    obtain ⟨ps, hps⟩ := mapPayloads_market_ok (marketOrders orders)
      (fun o ho => hall o (List.mem_of_mem_filter ho))
    have hresp : collectConfs
        ((marketOrders orders).map (fun o => some (marketResp o)) ++ [none]) =
        .error .attributeError := by
      have hmm : (marketOrders orders).map (fun o => some (marketResp o)) =
          ((marketOrders orders).map marketResp).map some := by
        simp [List.map_map]
      rw [hmm]
      apply collectConfs_hits_none
      intro r hr
      obtain ⟨o, ho, rfl⟩ := List.mem_map.mp hr
      exact hcode o (List.mem_of_mem_filter ho)
    simp [place_bulk_orders, bind, Except.bind, pure, Except.pure, hnm, hps, hresp]
  · intro rest
    rfl

theorem place_bulk_orders_null_batch_witness :
    place_bulk_orders [wMarketOrder] wMarketResp wBatchResp =
      .error .attributeError :=
  (place_bulk_orders_null_batch [wMarketOrder] wMarketResp wBatchResp
    (by decide) (by decide)).1

/-! ## EMA-cross strategy model (`EMACrossTestingOnly.run`, src/model.py)

The operating data frame row is a bar's (index timestamp, open, EMA10,
EMA20); indicator values are `Option` (None before the indicator warms
up).  Numeric values are integers (the claim is about control flow, not
float arithmetic).  `sys.exit(0)` from the `except IndexError` handler
is the `systemExit` outcome. -/

/-- One row of `zip(index, open, EMA10, EMA20)`. -/
structure Bar where
  time : Int
  openPx : Int
  ema10 : Option Int
  ema20 : Option Int
  deriving DecidableEq, Repr

/-- Python list subscription with negative wraparound: `l[i]` is valid
for `-len(l) ≤ i < len(l)`. -/
def pyGet {α : Type} (l : List α) (i : Int) : Option α :=
  let n : Int := l.length
  let j : Int := if i < 0 then n + i else i
  if 0 ≤ j ∧ j < n then l.get? j.toNat else none

/-- Python `a < b` on possibly-None operands: `TypeError` unless both are
present. -/
def pyLt (a b : Option Int) : Except PyErr Bool :=
  match a, b with
  | some a, some b => .ok (a < b)
  | _, _ => .error .typeError

/-- Kind of EMA cross detected at one loop index. -/
inductive CrossKind where
  | long
  | short
  | noCross
  deriving DecidableEq, Repr

/-- One iteration of the cross-detection loop of `run` at index `i`:
skipped when either EMA is None; otherwise the two previous rows are
fetched (Python negative indexing, `IndexError` when out of range) and
the short/long cross conditions are evaluated with Python's
short-circuit `and` (comparisons against None raise `TypeError`). -/
def crossStep (features : List Bar) (i : Int) : Except PyErr CrossKind :=
  match pyGet features i with
  | none => .error .indexError
  | some bi =>
      match bi.ema10, bi.ema20 with
      | some fast, some slow => do
          let bm1 ← match pyGet features (i - 1) with
            | some b => Except.ok b
            | none => .error .indexError
          let bm2 ← match pyGet features (i - 2) with
            | some b => Except.ok b
            | none => .error .indexError
          if slow > fast then do
            let c1 ← pyLt bm1.ema20 bm1.ema10
            if c1 then do
              let c2 ← pyLt bm2.ema20 bm2.ema10
              pure (if c2 then .short else .noCross)
            else pure .noCross
          else if slow < fast then do
            let c1 ← pyLt bm1.ema10 bm1.ema20
            if c1 then do
              let c2 ← pyLt bm2.ema10 bm2.ema20
              pure (if c2 then .long else .noCross)
            else pure .noCross
          else pure .noCross
      | _, _ => .ok .noCross

/-- The cross-detection loop over indices `0 .. k-1`, accumulating the
`longs` and `shorts` parallel arrays as (open price, time) pairs. -/
def scanCrosses (features : List Bar) :
    Nat → Except PyErr (List (Int × Int) × List (Int × Int))
  | 0 => .ok ([], [])
  | k + 1 => do
      let (longs, shorts) ← scanCrosses features k
      match pyGet features (k : Int) with
      | none => .error .indexError
      | some bi =>
          match ← crossStep features (k : Int) with
          | .long => pure (longs ++ [(bi.openPx, bi.time)], shorts)
          | .short => pure (longs, shorts ++ [(bi.openPx, bi.time)])
          | .noCross => pure (longs, shorts)

/-- The informative fields of the `SignalEvent` built by `run` (the
remaining constructor arguments are constants, None, or the data frame
passed through). -/
structure Signal where
  symbol : String
  entry_ts : Int
  direction : String
  timeframe : String
  strategy : String
  venue : String
  entry_price : Int
  order_type : String
  deriving DecidableEq, Repr

/-- Embeds `EMACrossTestingOnly.operating_timeframes` (src/model.py). -/
def operating_timeframes : List String := ["1Min"]

/-- Embeds `EMACrossTestingOnly.name` (src/model.py). -/
def emaModelName : String := "EMA Cross - Testing only"

/-- Embeds `EMACrossTestingOnly.run` (src/model.py): scans the window for EMA
crosses, then, inside a `try` whose `except IndexError` prints and calls
`sys.exit(0)`, emits a Signal when the current (last) bar closed with a
cross; the long-side list is subscripted first. -/
def emaRun (op_data : List Bar) (timeframe symbol venue : String) :
    Except PyErr (Option Signal) :=
  if timeframe ∈ operating_timeframes then do
    let features := op_data
    let (longs, shorts) ← scanCrosses features features.length
    if longs.length > 0 ∨ shorts.length > 0 then
      match pyGet features (-1) with
      | none => .error .systemExit
      | some cur =>
          match longs.getLast? with
          | none => .error .systemExit
          | some (lp, lt) =>
              if cur.time = lt then
                pure (some ⟨symbol, lt, "LONG", timeframe, emaModelName,
                  venue, lp, "Market"⟩)
              else
                match shorts.getLast? with
                | none => .error .systemExit
                | some (sp, st) =>
                    if cur.time = st then
                      pure (some ⟨symbol, st, "SHORT", timeframe, emaModelName,
                        venue, sp, "Market"⟩)
                    else pure none
    else pure none
  else pure none

lemma pyGet_nat {α : Type} (l : List α) (i : Nat) (h : i < l.length) :
    pyGet l (i : Int) = l.get? i := by
  have h0 : ¬((i : Int) < 0) := by omega
  have h1 : 0 ≤ (i : Int) ∧ (i : Int) < (l.length : Int) := ⟨by omega, by omega⟩
  simp only [pyGet]
  rw [if_neg h0, if_pos h1]
  simp

lemma pyGet_neg_one {α : Type} (l : List α) (h : l ≠ []) :
    pyGet l (-1) = l.get? (l.length - 1) := by
  have hl : 0 < l.length := List.length_pos.mpr h
  have hc : (-1 : Int) < 0 := by omega
  have h1 : 0 ≤ (l.length : Int) + (-1) ∧
      (l.length : Int) + (-1) < (l.length : Int) := ⟨by omega, by omega⟩
  simp only [pyGet]
  rw [if_pos hc, if_pos h1]
  congr 1
  omega

lemma scanCrosses_mem (features : List Bar) (k : Nat)
    {ls ss : List (Int × Int)} (h : scanCrosses features k = .ok (ls, ss)) :
    (∀ p ∈ ls, ∃ i : Nat, i < k ∧ crossStep features (i : Int) = .ok .long ∧
      ∃ b, pyGet features (i : Int) = some b ∧ p = (b.openPx, b.time)) ∧
    (∀ p ∈ ss, ∃ i : Nat, i < k ∧ crossStep features (i : Int) = .ok .short ∧
      ∃ b, pyGet features (i : Int) = some b ∧ p = (b.openPx, b.time)) := by
  induction k generalizing ls ss with
  | zero =>
      injection h with h
      injection h with h1 h2
      subst h1; subst h2
      exact ⟨fun p hp => absurd hp (List.not_mem_nil p),
        fun p hp => absurd hp (List.not_mem_nil p)⟩
  | succ k ih =>
      simp only [scanCrosses, bind, Except.bind] at h
      cases e1 : scanCrosses features k with
      | error _ => rw [e1] at h; cases h
      | ok acc =>
          obtain ⟨l0, s0⟩ := acc
          rw [e1] at h
          dsimp only at h
          cases e2 : pyGet features (k : Int) with
          | none => rw [e2] at h; cases h
          | some bi =>
              rw [e2] at h
              cases e3 : crossStep features (k : Int) with
              | error _ => rw [e3] at h; cases h
              | ok ck =>
                  rw [e3] at h
                  dsimp only at h
                  obtain ⟨ihl, ihs⟩ := ih e1
                  have bump : ∀ (P : CrossKind → Prop) (i : Nat), i < k →
                      i < k + 1 := fun _ i hi => Nat.lt_succ_of_lt hi
                  cases ck with
                  | long =>
                      injection h with h
                      injection h with h1 h2
                      subst h1; subst h2
                      refine ⟨fun p hp => ?_, fun p hp => ?_⟩
                      · rcases List.mem_append.mp hp with hp | hp
                        · obtain ⟨i, hi, hc, b, hb, hpb⟩ := ihl p hp
                          exact ⟨i, Nat.lt_succ_of_lt hi, hc, b, hb, hpb⟩
                        · rcases List.mem_singleton.mp hp with rfl
                          exact ⟨k, Nat.lt_succ_self k, e3, bi, e2, rfl⟩
                      · obtain ⟨i, hi, hc, b, hb, hpb⟩ := ihs p hp
                        exact ⟨i, Nat.lt_succ_of_lt hi, hc, b, hb, hpb⟩
                  | short =>
                      injection h with h
                      injection h with h1 h2
                      subst h1; subst h2
                      refine ⟨fun p hp => ?_, fun p hp => ?_⟩
                      · obtain ⟨i, hi, hc, b, hb, hpb⟩ := ihl p hp
                        exact ⟨i, Nat.lt_succ_of_lt hi, hc, b, hb, hpb⟩
                      · rcases List.mem_append.mp hp with hp | hp
                        · obtain ⟨i, hi, hc, b, hb, hpb⟩ := ihs p hp
                          exact ⟨i, Nat.lt_succ_of_lt hi, hc, b, hb, hpb⟩
                        · rcases List.mem_singleton.mp hp with rfl
                          exact ⟨k, Nat.lt_succ_self k, e3, bi, e2, rfl⟩
                  | noCross =>
                      injection h with h
                      injection h with h1 h2
                      subst h1; subst h2
                      refine ⟨fun p hp => ?_, fun p hp => ?_⟩
                      · obtain ⟨i, hi, hc, b, hb, hpb⟩ := ihl p hp
                        exact ⟨i, Nat.lt_succ_of_lt hi, hc, b, hb, hpb⟩
                      · obtain ⟨i, hi, hc, b, hb, hpb⟩ := ihs p hp
                        exact ⟨i, Nat.lt_succ_of_lt hi, hc, b, hb, hpb⟩

/-- C8 counterexample data: a window whose only cross is a short cross at
the current bar (no long crosses at all).  `run` subscripts the empty
long-side list, the `IndexError` is caught, and the call ends in
`sys.exit(0)` instead of returning a Signal or null. -/
theorem emaRun_short_only_counterexample :
    emaRun
      [⟨0, 10, some 5, some 3⟩, ⟨1, 11, some 5, some 3⟩, ⟨2, 12, some 5, some 3⟩,
       ⟨3, 13, some 5, some 3⟩, ⟨4, 14, some 1, some 9⟩] "1Min" "XBTUSD" "BitMEX" =
      .error .systemExit ∧
    scanCrosses
      [⟨0, 10, some 5, some 3⟩, ⟨1, 11, some 5, some 3⟩, ⟨2, 12, some 5, some 3⟩,
       ⟨3, 13, some 5, some 3⟩, ⟨4, 14, some 1, some 9⟩] 5 = .ok ([], [(14, 4)]) :=
  ⟨by decide, by decide⟩

/-- C8 (amended): at most one Signal is returned per call (the return
type), and any returned Signal's direction matches the cross kind
detected at the current (last) bar, provided bar timestamps are
pairwise distinct; but when the scan finds short crosses and no long
crosses, `run` terminates through the `except IndexError` handler's
`sys.exit(0)` instead of returning normally. -/
theorem emaRun_spec (op : List Bar) (symbol venue : String)
    (hinj : ∀ i j : Fin op.length, (op.get i).time = (op.get j).time → i = j) :
    (∀ sig, emaRun op "1Min" symbol venue = .ok (some sig) →
      (sig.direction = "LONG" ∧
        crossStep op ((op.length : Int) - 1) = .ok .long) ∨
      (sig.direction = "SHORT" ∧
        crossStep op ((op.length : Int) - 1) = .ok .short)) ∧
    (∀ ss, scanCrosses op op.length = .ok ([], ss) → ss ≠ [] →
      emaRun op "1Min" symbol venue = .error .systemExit) := by
  have hop : "1Min" ∈ operating_timeframes := by decide
  have hlast : ∀ {p : Int × Int} {ls : List (Int × Int)},
      ls.getLast? = some p → p ∈ ls := by
    intro p ls he
    obtain ⟨hne, heq⟩ := List.mem_getLast?_eq_getLast (Option.mem_def.mpr he)
    exact heq ▸ List.getLast_mem hne
  have hcur : ∀ {cur : Bar}, pyGet op (-1) = some cur → op ≠ [] →
      ∀ (hl : op.length - 1 < op.length), cur = op.get ⟨op.length - 1, hl⟩ := by
    intro cur hc hne hl
    rw [pyGet_neg_one op hne, List.get?_eq_get hl] at hc
    exact (Option.some_inj.mp hc).symm
  have hpin : ∀ {b : Bar} {i : Nat} (hi : i < op.length),
      pyGet op (i : Int) = some b → b = op.get ⟨i, hi⟩ := by
    intro b i hi hb
    rw [pyGet_nat op i hi, List.get?_eq_get hi] at hb
    exact (Option.some_inj.mp hb).symm
  constructor
  · intro sig h
    simp only [emaRun, if_pos hop, bind, Except.bind] at h
    cases e1 : scanCrosses op op.length with
    | error _ => rw [e1] at h; cases h
    | ok acc =>
        obtain ⟨ls, ss⟩ := acc
        rw [e1] at h
        dsimp only at h
        by_cases hg : ls.length > 0 ∨ ss.length > 0
        · rw [if_pos hg] at h
          cases e2 : pyGet op (-1) with
          | none => rw [e2] at h; cases h
          | some cur =>
              rw [e2] at h
              have hne : op ≠ [] := by
                intro hnil
                rw [hnil] at e2
                cases e2
              have hl1 : op.length - 1 < op.length := by
                have := List.length_pos.mpr hne
                omega
              cases e3 : ls.getLast? with
              | none => rw [e3] at h; cases h
              | some pl =>
                  obtain ⟨lp, lt⟩ := pl
                  rw [e3] at h
                  dsimp only at h
                  by_cases hteq : cur.time = lt
                  · rw [if_pos hteq] at h
                    injection h with h
                    injection h with h
                    subst h
                    left
                    refine ⟨rfl, ?_⟩
                    obtain ⟨i, hi, hc, b, hb, hpb⟩ :=
                      ((scanCrosses_mem op op.length e1).1 (lp, lt) (hlast e3))
                    have hbi : b = op.get ⟨i, hi⟩ := hpin hi hb
                    have hbt : b.time = lt := by
                      injection hpb with h1 h2
                      exact h2.symm
                    have hie : (⟨i, hi⟩ : Fin op.length) = ⟨op.length - 1, hl1⟩ := by
                      apply hinj
                      rw [← hbi, hbt, ← (hcur e2 hne hl1), hteq]
                    have hin : i = op.length - 1 := by
                      injection hie
                    have hcast : ((i : Nat) : Int) = (op.length : Int) - 1 := by
                      omega
                    rw [← hcast]
                    exact hc
                  · rw [if_neg hteq] at h
                    cases e4 : ss.getLast? with
                    | none => rw [e4] at h; cases h
                    | some ps =>
                        obtain ⟨sp, st⟩ := ps
                        rw [e4] at h
                        dsimp only at h
                        by_cases hseq : cur.time = st
                        · rw [if_pos hseq] at h
                          injection h with h
                          injection h with h
                          subst h
                          right
                          refine ⟨rfl, ?_⟩
                          obtain ⟨i, hi, hc, b, hb, hpb⟩ :=
                            ((scanCrosses_mem op op.length e1).2 (sp, st) (hlast e4))
                          have hbi : b = op.get ⟨i, hi⟩ := hpin hi hb
                          have hbt : b.time = st := by
                            injection hpb with h1 h2
                            exact h2.symm
                          have hie : (⟨i, hi⟩ : Fin op.length) =
                              ⟨op.length - 1, hl1⟩ := by
                            apply hinj
                            rw [← hbi, hbt, ← (hcur e2 hne hl1), hseq]
                          have hin : i = op.length - 1 := by
                            injection hie
                          have hcast : ((i : Nat) : Int) = (op.length : Int) - 1 := by
                            omega
                          rw [← hcast]
                          exact hc
                        · rw [if_neg hseq] at h
                          injection h with h
                          cases h
        · rw [if_neg hg] at h
          injection h with h
          cases h
  · intro ss h hne
    simp only [emaRun, if_pos hop, bind, Except.bind, h]
    rw [if_pos (Or.inr (by
      cases ss with
      | nil => exact absurd rfl hne
      | cons a l => simp))]
    cases e2 : pyGet op (-1) with
    | none => rfl
    | some cur => rfl

theorem emaRun_spec_witness :
    emaRun
      [⟨0, 10, some 3, some 5⟩, ⟨1, 11, some 3, some 5⟩, ⟨2, 12, some 3, some 5⟩,
       ⟨3, 13, some 3, some 5⟩, ⟨4, 14, some 9, some 1⟩] "1Min" "XBTUSD" "BitMEX" =
      .ok (some ⟨"XBTUSD", 4, "LONG", "1Min", emaModelName, "BitMEX", 14,
        "Market"⟩) ∧
    crossStep
      [⟨0, 10, some 3, some 5⟩, ⟨1, 11, some 3, some 5⟩, ⟨2, 12, some 3, some 5⟩,
       ⟨3, 13, some 3, some 5⟩, ⟨4, 14, some 9, some 1⟩] 4 = .ok .long := by
  refine ⟨by decide, ?_⟩
  have h := ((emaRun_spec
      [⟨0, 10, some 3, some 5⟩, ⟨1, 11, some 3, some 5⟩, ⟨2, 12, some 3, some 5⟩,
       ⟨3, 13, some 3, some 5⟩, ⟨4, 14, some 9, some 1⟩] "XBTUSD" "BitMEX"
      (by decide)).1
      ⟨"XBTUSD", 4, "LONG", "1Min", emaModelName, "BitMEX", 14, "Market"⟩
      (by decide))
  rcases h with ⟨_, hc⟩ | ⟨hd, _⟩
  · exact hc
  · exact absurd hd (by decide)

